import Mathlib

namespace Quaint

/-! Shallow embedding of `src/connector/sqlite.rs` (connection-string parser,
connector construction, database attachment and the query-execution facade).
Strings are modelled as `List Char`; the filesystem directory check and the
physical-cpu count are explicit parameters. -/

/-- Rust `str::split(c)`: splits on every occurrence of `c`; the result is
never empty ( `"".split(c)` is `[""]` ). -/
def splitOnChar (c : Char) : List Char → List (List Char)
  | [] => [[]]
  | x :: xs =>
    if x = c then [] :: splitOnChar c xs
    else
      match splitOnChar c xs with
      | [] => [[x]]
      | y :: ys => (x :: y) :: ys

/-- Fuel-driven loop of Rust `str::trim_start_matches(pat)`: strip the
pattern from the front as long as it matches. The fuel `s.length` is enough
because each successful strip removes at least one character. -/
def trimGo (pre : List Char) : Nat → List Char → List Char
  | 0, s => s
  | n + 1, s =>
    if pre ≠ [] ∧ pre.isPrefixOf s then trimGo pre n (s.drop pre.length) else s

/-- Rust `str::trim_start_matches`: repeatedly removes every leading
occurrence of the pattern. -/
def trimStartMatches (pre s : List Char) : List Char :=
  trimGo pre s.length s

/-- Digit run of Rust `usize::from_str`. -/
def parseDigits (s : List Char) : Option Nat :=
  s.foldl
    (fun acc c =>
      match acc with
      | some n => if c.isDigit then some (n * 10 + (c.toNat - 48)) else none
      | none => none)
    (some 0)

/-- Rust `str::parse::<usize>()` on a 64-bit platform: an optional leading
`+`, then a non-empty run of ASCII digits whose value fits in `2 ^ 64`. -/
def parseUsize (s : List Char) : Option Nat :=
  let t := match s with
    | '+' :: rest => rest
    | _ => s
  if t.isEmpty then none
  else match parseDigits t with
    | some n => if n < 2 ^ 64 then some n else none
    | none => none

example : parseUsize "123".toList = some 123 := by decide
example : parseUsize "0".toList = some 0 := by decide
example : parseUsize "".toList = none := by decide
example : parseUsize "+7".toList = some 7 := by decide
example : parseUsize "-1".toList = none := by decide
example : parseUsize "1a".toList = none := by decide
example : trimStartMatches "file:".toList "file:file:x".toList = "x".toList := by decide
example : splitOnChar '?' "a?b?c".toList = ["a".toList, "b".toList, "c".toList] := by decide

/-- The `"file:"` scheme pattern of line 37. -/
def fileScheme : List Char := "file:".toList

/-- The recognized key `"connection_limit"` (line 66). -/
def climitKey : List Char := "connection_limit".toList

/-- The recognized key `"db_name"` (line 72). -/
def dbNameKey : List Char := "db_name".toList

/-- The error type, restricted to the variants this file produces
(`Error::DatabaseUrlIsInvalid`, `Error::InvalidConnectionArguments`). -/
inductive Error
  | DatabaseUrlIsInvalid (path : List Char)
  | InvalidConnectionArguments
  deriving DecidableEq

/-- Struct `SqliteParams` (lines 23-29). `connection_limit` is `u32` in the source;
the embedding keeps a `Nat` and makes the `u32::try_from(...).unwrap()` of
line 89 an explicit bound check. -/
structure SqliteParams where
  connection_limit : Nat
  file_path : List Char
  db_name : Option (List Char)
  deriving DecidableEq

/-- Outcome of a Rust computation that may return `Ok`, return `Err`, or
panic (`unwrap` failure / out-of-bounds index). -/
inductive Outcome (α : Type) where
  | ok (a : α)
  | err (e : Error)
  | panicked
  deriving DecidableEq

/-- Lines 37-38: strip the scheme and split the whole address on `?`. -/
def resolvePath (path0 : List Char) : List (List Char) :=
  splitOnChar '?' (trimStartMatches fileScheme path0)

/-- Lines 57-58: split one `key=value` chunk on `=` and take elements `0`
and `1`; `none` models the panic when there is no `=` (index out of
bounds on `splitted[1]`). Extra `=`-separated pieces are dropped, as in the
source. -/
def mapKv (kv : List Char) : Option (List Char × List Char) :=
  match splitOnChar '=' kv with
  | k :: v :: _ => some (k, v)
  | _ => none

/-- Lines 52-60: map every chunk of the query block through `mapKv`,
stopping at the first panic. The `partition` with the empty `official`
list (lines 47, 62) keeps every pair, in order. -/
def mapPairs : List (List Char) → Option (List (List Char × List Char))
  | [] => some []
  | kv :: rest =>
    match mapKv kv, mapPairs rest with
    | some p, some ps => some (p :: ps)
    | _, _ => none

/-- Lines 51-60 as one function of the whole address: the parsed
`key=value` pairs of the query block (taken from the segment
`path_parts.last()`), `some []` when there is no query block, `none` when a
chunk without `=` panics. -/
def queryPairsOf (path0 : List Char) : Option (List (List Char × List Char)) :=
  let path_parts := resolvePath path0
  if path_parts.length > 1 then mapPairs (splitOnChar '&' (path_parts.getLastD []))
  else some []

/-- The `for (k, v) in unsupported` loop (lines 64-85): fold the pairs over
the mutable `connection_limit` / `db_name` state. `none` models the `Err`
return of line 68 (`InvalidConnectionArguments`); unrecognized keys only
trace-log and change nothing. -/
def processPairs : List (List Char × List Char) → Nat → Option (List Char) →
    Option (Nat × Option (List Char))
  | [], cl, db => some (cl, db)
  | (k, v) :: rest, cl, db =>
    if k = climitKey then
      match parseUsize v with
      | some n => processPairs rest n db
      | none => none
    else if k = dbNameKey then processPairs rest cl (some v)
    else processPairs rest cl db

/-- Lines 47-92 after the directory check: run the pair loop over the
parsed query pairs (`connection_limit` starts at `2 * cpus + 1`, line 48)
and build the `SqliteParams`; the final
`u32::try_from(connection_limit).unwrap()` of line 89 panics when the
value does not fit in 32 bits. -/
def finishParams (path_str : List Char) (physicalCpus : Nat)
    (pairsOpt : Option (List (List Char × List Char))) : Outcome SqliteParams :=
  match pairsOpt with
  | none => Outcome.panicked
  | some pairs =>
    match processPairs pairs (physicalCpus * 2 + 1) none with
    | none => Outcome.err Error.InvalidConnectionArguments
    | some (cl, db) =>
      if cl < 2 ^ 32 then Outcome.ok ⟨cl, path_str, db⟩ else Outcome.panicked

/-- Function `SqliteParams::try_from(&str)` (lines 36-94). `isDir` is the
filesystem's `Path::is_dir` oracle and `physicalCpus` the value of
`num_cpus::get_physical()`. -/
def SqliteParams.tryFrom (isDir : List Char → Bool) (physicalCpus : Nat)
    (path0 : List Char) : Outcome SqliteParams :=
  if isDir ((resolvePath path0).headD []) then
    Outcome.err (Error.DatabaseUrlIsInvalid ((resolvePath path0).headD []))
  else finishParams ((resolvePath path0).headD []) physicalCpus (queryPairsOf path0)

def noDir : List Char → Bool := fun _ => false

example : SqliteParams.tryFrom noDir 1 "file:dev.db".toList =
    Outcome.ok ⟨3, "dev.db".toList, none⟩ := by decide
example : SqliteParams.tryFrom noDir 1 "db?connection_limit=5&db_name=x".toList =
    Outcome.ok ⟨5, "db".toList, some "x".toList⟩ := by decide
example : SqliteParams.tryFrom noDir 1 "db?connection_limit=abc".toList =
    Outcome.err Error.InvalidConnectionArguments := by decide
example : SqliteParams.tryFrom noDir 1 "db?foo".toList = Outcome.panicked := by decide
example : SqliteParams.tryFrom noDir 1 "db?connection_limit=4294967296".toList =
    Outcome.panicked := by decide
example : SqliteParams.tryFrom noDir 1 "a?b=c?connection_limit=9".toList =
    Outcome.ok ⟨9, "a".toList, none⟩ := by decide

/-! Connector instance and execution facade. The underlying engine
(`rusqlite`) is an external collaborator; its visible state is modelled from
the spec: the list of attached database names (read back by
`PRAGMA database_list`), the foreign-key pragma flag, and the
last-inserted-row id of the connection. -/

/-- Modelled from the spec: the observable state of one native connection —
attached database names, the foreign-key enforcement flag, and the
last-inserted-row id (an `i64`). -/
structure ConnState where
  attached : List (List Char)
  fkEnabled : Bool
  lastInsertRowid : Int
  deriving DecidableEq

/-- Modelled from the spec: a freshly opened in-memory connection
(`rusqlite::Connection::open_in_memory()`, line 102) has only the `main`
database, foreign keys at the engine default (off), and no insert yet. -/
def freshConn : ConnState := ⟨["main".toList], false, 0⟩

/-- A statement the connector issues against the engine during
`attach_database`, recorded as a trace. -/
inductive EngineStmt where
  | pragmaDatabaseList
  | attachStmt (path name : List Char)
  | pragmaFkOn
  deriving DecidableEq

/-- Struct `Sqlite` (lines 15-20): the guarded native connection plus the resolved
file path. -/
structure Sqlite where
  client : ConnState
  file_path : List Char
  deriving DecidableEq

/-- Function `Sqlite::try_from(&str)` (lines 97-107): parse the address, open a fresh
in-memory connection, record only the file path. -/
def Sqlite.tryFrom (isDir : List Char → Bool) (physicalCpus : Nat)
    (path0 : List Char) : Outcome Sqlite :=
  match SqliteParams.tryFrom isDir physicalCpus path0 with
  | Outcome.ok params => Outcome.ok ⟨freshConn, params.file_path⟩
  | Outcome.err e => Outcome.err e
  | Outcome.panicked => Outcome.panicked

/-- Function `Sqlite::new` (lines 110-113) just forwards to `Sqlite::try_from`. -/
def Sqlite.new (isDir : List Char → Bool) (physicalCpus : Nat)
    (file_path : List Char) : Outcome Sqlite :=
  Sqlite.tryFrom isDir physicalCpus file_path

/-- Function `Sqlite::attach_database` (lines 115-139) acting on the connection
state, also returning the trace of statements issued: list the attached
names via `PRAGMA database_list`; `ATTACH DATABASE ? AS ?` only when the
name is absent; then unconditionally `PRAGMA foreign_keys = ON`. -/
def Sqlite.attach_database (st : ConnState) (file_path db_name : List Char) :
    ConnState × List EngineStmt :=
  let databases := st.attached
  if db_name ∈ databases then
    ({ st with fkEnabled := true }, [EngineStmt.pragmaDatabaseList, EngineStmt.pragmaFkOn])
  else
    ({ st with attached := st.attached ++ [db_name], fkEnabled := true },
      [EngineStmt.pragmaDatabaseList, EngineStmt.attachStmt file_path db_name,
        EngineStmt.pragmaFkOn])

/-- Modelled from the spec: a tagged positional parameter value. -/
inductive Param where
  | null
  | integer (i : Int)
  | text (s : List Char)
  | boolean (b : Bool)
  deriving DecidableEq

/-- Type `Id` (the generated-identifier type): `Id::Int(usize)`. -/
inductive Id where
  | int (n : Nat)
  deriving DecidableEq

/-- The Rust cast `i64 as usize` on a 64-bit platform: reinterpret the value
modulo `2 ^ 64` (line 152). -/
def asUsize (i : Int) : Nat := (i % (2 ^ 64 : Int)).toNat

/-- Modelled from the spec: the engine's behavior for one prepared-statement
execution — it transforms the connection state and returns the affected-row
count or an engine error. -/
def Engine : Type :=
  List Char → List Param → ConnState → ConnState × Except Error Nat

/-- Function `Queryable::execute_raw` for `Sqlite` (lines 191-207): prepare, bind
and execute under the lock; the metrics wrapper forwards the result
unchanged. The affected-row count is a `usize`, so the
`u64::try_from(changes).unwrap()` of line 199 never panics. -/
def Sqlite.execute_raw (engine : Engine) (st : ConnState) (sql : List Char)
    (params : List Param) : ConnState × Except Error Nat :=
  engine sql params st

/-- Modelled from the spec: the structured query AST, abstracted to the one
observable the claims need — whether the statement is an INSERT. -/
structure Query where
  isInsert : Bool
  deriving DecidableEq

/-- Function `Queryable::execute` for `Sqlite` (lines 145-156): render via the
visitor (`build`), delegate to `execute_raw`, then on success read
`last_insert_rowid()` from the connection and return it as
`Some(Id::Int(rowid as usize))` — without inspecting the query. -/
def Sqlite.execute (build : Query → List Char × List Param) (engine : Engine)
    (st : ConnState) (q : Query) : ConnState × Except Error (Option Id) :=
  let rendered := build q
  match Sqlite.execute_raw engine st rendered.1 rendered.2 with
  | (st2, Except.ok _) =>
    (st2, Except.ok (some (Id.int (asUsize st2.lastInsertRowid))))
  | (st2, Except.error e) => (st2, Except.error e)

/-- The parser as the spec's split-on-first-`?` sentence describes it
(refinement target, not the source): the path is everything before the
first `?` and the pairs are parsed from everything after that first `?`. -/
def afterFirstChar (c : Char) : List Char → List Char
  | [] => []
  | x :: xs => if x = c then xs else afterFirstChar c xs

/-- The parser variant following the spec's words for C2: identical to
`SqliteParams.tryFrom` except that the `key=value` pairs come from
everything after the FIRST `?`. -/
def SqliteParams.tryFromSpecFirstSplit (isDir : List Char → Bool)
    (physicalCpus : Nat) (path0 : List Char) : Outcome SqliteParams :=
  let path := trimStartMatches fileScheme path0
  let path_str := (splitOnChar '?' path).headD []
  if isDir path_str then Outcome.err (Error.DatabaseUrlIsInvalid path_str)
  else
    let pairsOpt :=
      if '?' ∈ path then mapPairs (splitOnChar '&' (afterFirstChar '?' path))
      else some []
    match pairsOpt with
    | none => Outcome.panicked
    | some pairs =>
      match processPairs pairs (physicalCpus * 2 + 1) none with
      | none => Outcome.err Error.InvalidConnectionArguments
      | some (cl, db) =>
        if cl < 2 ^ 32 then Outcome.ok ⟨cl, path_str, db⟩ else Outcome.panicked

/-- Join query chunks back with `&` (inverse of the `split('&')` of line
55, used to state claims about whole address strings). -/
def joinAmp : List (List Char) → List Char
  | [] => []
  | [kv] => kv
  | kv :: kv2 :: rest => kv ++ '&' :: joinAmp (kv2 :: rest)

/-- The key of a `key=value` chunk (`splitted[0]`, line 58). -/
def kvKey (kv : List Char) : List Char := (splitOnChar '=' kv).headD []

/-- The value of a `key=value` chunk (`splitted[1]`, line 58). -/
def kvVal (kv : List Char) : List Char := ((splitOnChar '=' kv).drop 1).headD []

/-- Whether a chunk's key is one of the two recognized keys of the
`match` at lines 65-84. -/
def recognizedKv (kv : List Char) : Bool :=
  kvKey kv == climitKey || kvKey kv == dbNameKey

/-! Helper lemmas about the string primitives. -/

theorem splitOnChar_ne_nil (c : Char) (s : List Char) : splitOnChar c s ≠ [] := by
  induction s with
  | nil => simp [splitOnChar]
  | cons x xs ih =>
    simp only [splitOnChar]
    by_cases h : x = c
    · simp [h]
    · simp only [if_neg h]
      rcases hs : splitOnChar c xs with _ | ⟨y, ys⟩ <;> simp

theorem splitOnChar_not_mem {c : Char} {s : List Char} (h : c ∉ s) :
    splitOnChar c s = [s] := by
  induction s with
  | nil => rfl
  | cons x xs ih =>
    simp only [List.mem_cons, not_or] at h
    have hx : ¬x = c := fun hh => h.1 hh.symm
    simp only [splitOnChar, if_neg hx]
    rw [ih h.2]

theorem splitOnChar_append_cons (c : Char) {p : List Char} (r : List Char)
    (hp : c ∉ p) : splitOnChar c (p ++ c :: r) = p :: splitOnChar c r := by
  induction p with
  | nil => simp [splitOnChar]
  | cons x xs ih =>
    simp only [List.mem_cons, not_or] at hp
    have hx : ¬x = c := fun hh => hp.1 (hh ▸ rfl)
    simp only [List.cons_append, splitOnChar, if_neg hx, List.append_eq]
    rw [ih hp.2]

theorem two_le_splitOnChar_length {c : Char} {s : List Char} (h : c ∈ s) :
    2 ≤ (splitOnChar c s).length := by
  induction s with
  | nil => cases h
  | cons x xs ih =>
    by_cases hx : x = c
    · simp only [splitOnChar, if_pos hx, List.length_cons]
      have := splitOnChar_ne_nil c xs
      cases hs : splitOnChar c xs with
      | nil => exact absurd hs this
      | cons y ys => simp [hs]
    · have hmem : c ∈ xs := by
        rcases List.mem_cons.mp h with h1 | h1
        · exact absurd h1.symm hx
        · exact h1
      simp only [splitOnChar, if_neg hx]
      cases hs : splitOnChar c xs with
      | nil => exact absurd hs (splitOnChar_ne_nil c xs)
      | cons y ys =>
        have := ih hmem
        rw [hs] at this
        simpa using this

theorem getLastD_cons_ne {α : Type} (a : α) {l : List α} (h : l ≠ []) (d : α) :
    (a :: l).getLastD d = l.getLastD d := by
  cases l with
  | nil => exact absurd rfl h
  | cons b bs => simp [List.getLastD_cons]

theorem splitOnChar_getLastD (c : Char) (m : List Char) {r : List Char}
    (hr : c ∉ r) : (splitOnChar c (m ++ c :: r)).getLastD [] = r := by
  induction m with
  | nil =>
    simp only [List.nil_append, splitOnChar, if_pos rfl, splitOnChar_not_mem hr]
    rfl
  | cons x xs ih =>
    by_cases hx : x = c
    · simp only [List.cons_append, splitOnChar, if_pos hx]
      rw [getLastD_cons_ne _ (splitOnChar_ne_nil _ _)]
      exact ih
    · simp only [List.cons_append, splitOnChar, if_neg hx]
      cases hs : splitOnChar c (xs ++ c :: r) with
      | nil => exact absurd hs (splitOnChar_ne_nil _ _)
      | cons y ys =>
        have hlen : 2 ≤ (splitOnChar c (xs ++ c :: r)).length :=
          two_le_splitOnChar_length (by simp)
        rw [hs] at hlen
        have hys : ys ≠ [] := by
          cases ys
          · simp at hlen
          · simp
        have hih := ih
        rw [hs, getLastD_cons_ne _ hys] at hih
        rw [getLastD_cons_ne _ hys]
        exact hih

theorem trimGo_unmatched (pre : List Char) (n : Nat) {s : List Char}
    (h : pre.isPrefixOf s = false) : trimGo pre n s = s := by
  cases n with
  | zero => rfl
  | succ m => simp [trimGo, h]

theorem trimStartMatches_unmatched {pre s : List Char}
    (h : pre.isPrefixOf s = false) : trimStartMatches pre s = s :=
  trimGo_unmatched pre s.length h

theorem isPrefixOf_length_le :
    ∀ {l1 l2 : List Char}, l1.isPrefixOf l2 = true → l1.length ≤ l2.length := by
  intro l1
  induction l1 with
  | nil => intro l2 _; simp
  | cons a as ih =>
    intro l2 h
    cases l2 with
    | nil => simp [List.isPrefixOf] at h
    | cons b bs =>
      simp only [List.isPrefixOf, Bool.and_eq_true] at h
      have := ih h.2
      simp only [List.length_cons]
      omega

theorem isPrefixOf_append_self (pre s : List Char) :
    pre.isPrefixOf (pre ++ s) = true := by
  induction pre with
  | nil => simp [List.isPrefixOf]
  | cons a as ih => simp [List.isPrefixOf, ih]

theorem trimGo_congr {pre : List Char} (hpre : pre ≠ []) :
    ∀ (m n : Nat) (s : List Char), s.length ≤ m → s.length ≤ n →
      trimGo pre m s = trimGo pre n s := by
  intro m
  induction m with
  | zero =>
    intro n s hm _
    have hs : s = [] := List.length_eq_zero.mp (Nat.le_zero.mp hm)
    subst hs
    cases n with
    | zero => rfl
    | succ k =>
      have hp : pre.isPrefixOf ([] : List Char) = false := by
        cases pre with
        | nil => exact absurd rfl hpre
        | cons a as => rfl
      simp [trimGo, hp]
  | succ k ih =>
    intro n s hm hn
    cases n with
    | zero =>
      have hs : s = [] := List.length_eq_zero.mp (Nat.le_zero.mp hn)
      subst hs
      have hp : pre.isPrefixOf ([] : List Char) = false := by
        cases pre with
        | nil => exact absurd rfl hpre
        | cons a as => rfl
      simp [trimGo, hp]
    | succ j =>
      by_cases hc : pre ≠ [] ∧ pre.isPrefixOf s
      · simp only [trimGo, if_pos hc]
        have hplen : 1 ≤ pre.length := by
          cases pre with
          | nil => exact absurd rfl hpre
          | cons a as => simp
        have hslen : pre.length ≤ s.length :=
          isPrefixOf_length_le hc.2
        apply ih
        · simp only [List.length_drop]; omega
        · simp only [List.length_drop]; omega
      · simp only [trimGo, if_neg hc]

theorem trimStartMatches_append_self {pre : List Char} (hpre : pre ≠ [])
    (s : List Char) : trimStartMatches pre (pre ++ s) = trimStartMatches pre s := by
  show trimGo pre (pre ++ s).length (pre ++ s) = trimGo pre s.length s
  have hplen : 1 ≤ pre.length := by
    cases pre with
    | nil => exact absurd rfl hpre
    | cons a as => simp
  cases hl : (pre ++ s).length with
  | zero =>
    simp only [List.length_append] at hl
    omega
  | succ n =>
    have hpref : pre.isPrefixOf (pre ++ s) = true :=
      isPrefixOf_append_self pre s
    simp only [trimGo, if_pos (And.intro hpre hpref)]
    rw [List.drop_left]
    apply trimGo_congr hpre
    · simp only [List.length_append] at hl; omega
    · exact Nat.le_refl _

theorem isPrefixOf_append_cons_false {c : Char} :
    ∀ {pre p : List Char} (r : List Char), c ∉ pre →
      pre.isPrefixOf p = false → c ∉ p →
      pre.isPrefixOf (p ++ c :: r) = false := by
  intro pre
  induction pre with
  | nil => intro p r _ hpre _; simp [List.isPrefixOf] at hpre
  | cons a as ih =>
    intro p r hc hpre hp
    simp only [List.mem_cons, not_or] at hc
    cases p with
    | nil =>
      simp only [List.nil_append, List.isPrefixOf]
      have : (a == c) = false := by
        simp only [beq_eq_false_iff_ne, ne_eq]
        exact fun hh => hc.1 hh.symm
      simp [this]
    | cons b bs =>
      simp only [List.mem_cons, not_or] at hp
      simp only [List.cons_append, List.isPrefixOf] at hpre ⊢
      by_cases hab : (a == b) = true
      · simp only [hab, Bool.true_and] at hpre ⊢
        exact ih r hc.2 hpre hp.2
      · have : (a == b) = false := Bool.eq_false_iff.mpr hab
        simp [this]

theorem mapKv_of_mem_eq {kv : List Char} (h : '=' ∈ kv) :
    mapKv kv = some (kvKey kv, kvVal kv) := by
  have hlen : 2 ≤ (splitOnChar '=' kv).length := two_le_splitOnChar_length h
  unfold mapKv kvKey kvVal
  cases hs : splitOnChar '=' kv with
  | nil => exact absurd hs (splitOnChar_ne_nil _ _)
  | cons k rest =>
    cases rest with
    | nil => rw [hs] at hlen; simp at hlen
    | cons v rest2 => simp

theorem mapPairs_of_all_eq {kvs : List (List Char)}
    (h : ∀ kv ∈ kvs, '=' ∈ kv) :
    mapPairs kvs = some (kvs.map fun kv => (kvKey kv, kvVal kv)) := by
  induction kvs with
  | nil => rfl
  | cons kv rest ih =>
    simp only [mapPairs, mapKv_of_mem_eq (h kv (List.mem_cons_self kv rest)),
      ih fun k hk => h k (List.mem_cons_of_mem kv hk), List.map_cons]

theorem processPairs_filter_recognized :
    ∀ (prs : List (List Char × List Char)) (cl : Nat) (db : Option (List Char)),
      processPairs prs cl db =
        processPairs (prs.filter fun pr => pr.1 == climitKey || pr.1 == dbNameKey)
          cl db := by
  intro prs
  induction prs with
  | nil => intro cl db; rfl
  | cons pr rest ih =>
    intro cl db
    rcases pr with ⟨k, v⟩
    by_cases hk : k = climitKey
    · simp only [processPairs, if_pos hk, List.filter_cons]
      have hb : (k == climitKey || k == dbNameKey) = true := by
        simp [hk]
      simp only [hb, if_pos rfl]
      simp only [processPairs, if_pos hk]
      cases parseUsize v with
      | none => rfl
      | some n => exact ih n db
    · by_cases hk2 : k = dbNameKey
      · simp only [processPairs, if_neg hk, if_pos hk2, List.filter_cons]
        have hb : (k == climitKey || k == dbNameKey) = true := by
          simp [hk2]
        simp only [hb, if_pos rfl]
        simp only [processPairs, if_neg hk, if_pos hk2]
        exact ih cl (some v)
      · simp only [processPairs, if_neg hk, if_neg hk2, List.filter_cons]
        have hb : (k == climitKey || k == dbNameKey) = false := by
          simp [hk, hk2]
        simp only [hb]
        exact ih cl db

theorem processPairs_no_climit :
    ∀ (prs : List (List Char × List Char)) (cl : Nat) (db : Option (List Char)),
      (∀ pr ∈ prs, pr.1 ≠ climitKey) →
      ∃ db2, processPairs prs cl db = some (cl, db2) := by
  intro prs
  induction prs with
  | nil => intro cl db _; exact ⟨db, rfl⟩
  | cons pr rest ih =>
    intro cl db h
    rcases pr with ⟨k, v⟩
    have hk : k ≠ climitKey := h (k, v) (List.mem_cons_self _ _)
    have hrest : ∀ pr ∈ rest, pr.1 ≠ climitKey :=
      fun pr hpr => h pr (List.mem_cons_of_mem _ hpr)
    by_cases hk2 : k = dbNameKey
    · simp only [processPairs, if_neg hk, if_pos hk2]
      exact ih cl (some v) hrest
    · simp only [processPairs, if_neg hk, if_neg hk2]
      exact ih cl db hrest

theorem not_mem_joinAmp {c : Char} (hc : c ≠ '&') :
    ∀ {kvs : List (List Char)}, (∀ kv ∈ kvs, c ∉ kv) → c ∉ joinAmp kvs := by
  intro kvs
  induction kvs with
  | nil => intro _; simp [joinAmp]
  | cons kv rest ih =>
    intro h
    cases rest with
    | nil => simpa [joinAmp] using h kv (List.mem_cons_self _ _)
    | cons kv2 rest2 =>
      simp only [joinAmp, List.mem_append, List.mem_cons, not_or]
      refine ⟨h kv (List.mem_cons_self _ _), hc, ?_⟩
      have := ih fun k hk => h k (List.mem_cons_of_mem _ hk)
      simpa [List.mem_append, List.mem_cons, not_or] using this

theorem splitAmp_joinAmp :
    ∀ {kvs : List (List Char)}, kvs ≠ [] → (∀ kv ∈ kvs, '&' ∉ kv) →
      splitOnChar '&' (joinAmp kvs) = kvs := by
  intro kvs
  induction kvs with
  | nil => intro h _; exact absurd rfl h
  | cons kv rest ih =>
    intro _ h
    cases rest with
    | nil =>
      simp only [joinAmp]
      exact splitOnChar_not_mem (h kv (List.mem_cons_self _ _))
    | cons kv2 rest2 =>
      simp only [joinAmp]
      rw [splitOnChar_append_cons '&' _ (h kv (List.mem_cons_self _ _))]
      rw [ih (by simp) fun k hk => h k (List.mem_cons_of_mem _ hk)]

theorem finishParams_some {path_str : List Char} {cpus : Nat}
    {prs : List (List Char × List Char)} {cl : Nat} {db : Option (List Char)}
    (h : processPairs prs (cpus * 2 + 1) none = some (cl, db)) :
    finishParams path_str cpus (some prs) =
      (if cl < 2 ^ 32 then Outcome.ok ⟨cl, path_str, db⟩ else Outcome.panicked) := by
  simp only [finishParams, h]

theorem finishParams_none {path_str : List Char} {cpus : Nat}
    {prs : List (List Char × List Char)}
    (h : processPairs prs (cpus * 2 + 1) none = none) :
    finishParams path_str cpus (some prs) =
      Outcome.err Error.InvalidConnectionArguments := by
  simp only [finishParams, h]

/-- Evaluation of `SqliteParams::try_from` once the split of the address is
known to have a query block: `p` is the path component, `L` the non-empty
tail of `?`-separated segments. -/
theorem tryFrom_of_resolvePath {isDir : List Char → Bool} {cpus : Nat}
    {path0 p : List Char} {L : List (List Char)} (hL : L ≠ [])
    (h : resolvePath path0 = p :: L) :
    SqliteParams.tryFrom isDir cpus path0 =
      (if isDir p then Outcome.err (Error.DatabaseUrlIsInvalid p)
       else finishParams p cpus (mapPairs (splitOnChar '&' (L.getLastD [])))) := by
  have hlen : (resolvePath path0).length > 1 := by
    rw [h]
    cases L with
    | nil => exact absurd rfl hL
    | cons a as => simp
  have hlast : (resolvePath path0).getLastD [] = L.getLastD [] := by
    rw [h]; exact getLastD_cons_ne p hL []
  have hhead : (resolvePath path0).headD [] = p := by rw [h]; rfl
  unfold SqliteParams.tryFrom queryPairsOf
  rw [hhead, if_pos hlen, hlast]

/-- Evaluation of `SqliteParams::try_from` when the address has no `?`:
no query block is parsed and the defaults are kept. -/
theorem tryFrom_of_resolvePath_single {isDir : List Char → Bool} {cpus : Nat}
    {path0 p : List Char} (h : resolvePath path0 = [p]) :
    SqliteParams.tryFrom isDir cpus path0 =
      (if isDir p then Outcome.err (Error.DatabaseUrlIsInvalid p)
       else if cpus * 2 + 1 < 2 ^ 32 then Outcome.ok ⟨cpus * 2 + 1, p, none⟩
       else Outcome.panicked) := by
  have hlen : ¬(resolvePath path0).length > 1 := by rw [h]; simp
  have hhead : (resolvePath path0).headD [] = p := by rw [h]; rfl
  unfold SqliteParams.tryFrom queryPairsOf
  rw [hhead, if_neg hlen]
  rfl

/-- A visitor rendering for a non-insert (UPDATE) statement and an engine
on which it succeeds, used by the C1 counterexample. -/
def updateBuild : Query → List Char × List Param :=
  fun _ => ("UPDATE t SET x = 1".toList, [])

def okEngine : Engine := fun _ _ st => (st, Except.ok 1)

/-- C1 counterexample: `execute` of a non-insert (UPDATE) statement whose
`execute_raw` succeeds still returns `Some(Id::Int(..))`, never `None`:
the source builds `Some(Id::Int(client.last_insert_rowid() as usize))`
without inspecting the statement. -/
theorem execute_update_returns_some :
    (Query.mk false).isInsert = false ∧
    (Sqlite.execute updateBuild okEngine freshConn (Query.mk false)).2 =
      Except.ok (some (Id.int 0)) ∧
    (Sqlite.execute updateBuild okEngine freshConn (Query.mk false)).2 ≠
      Except.ok none := by
  refine ⟨rfl, rfl, fun h => ?_⟩
  exact Option.noConfusion (Except.ok.inj h)

/-- C1 (amended): for every visitor rendering, engine behavior, connection
state and query, `execute` either propagates the `execute_raw` error or
returns `Some(Id::Int(last_insert_rowid as usize))` — it never returns
`Ok(None)`, whatever the statement kind. -/
theorem execute_result_always_some_or_error (build : Query → List Char × List Param)
    (engine : Engine) (st : ConnState) (q : Query) :
    (Sqlite.execute build engine st q).2 =
      Except.ok (some (Id.int
        (asUsize (Sqlite.execute build engine st q).1.lastInsertRowid))) ∨
    ∃ e, (Sqlite.execute build engine st q).2 = Except.error e := by
  rcases h : engine (build q).1 (build q).2 st with ⟨st2, r⟩
  cases r with
  | ok n => left; simp [Sqlite.execute, Sqlite.execute_raw, h]
  | error e => right; exact ⟨e, by simp [Sqlite.execute, Sqlite.execute_raw, h]⟩

/-- C2 counterexample: on `"a?b=c?connection_limit=9"` the source parses the
pairs from the segment after the LAST `?` (`path_parts.last()`), giving
`connection_limit = 9`, while the spec's split-on-first-`?` reading leaves
the default `3`; the two disagree. -/
theorem split_uses_last_question_mark :
    SqliteParams.tryFrom noDir 1 "a?b=c?connection_limit=9".toList =
      Outcome.ok ⟨9, "a".toList, none⟩ ∧
    SqliteParams.tryFromSpecFirstSplit noDir 1 "a?b=c?connection_limit=9".toList =
      Outcome.ok ⟨3, "a".toList, none⟩ ∧
    SqliteParams.tryFrom noDir 1 "a?b=c?connection_limit=9".toList ≠
      SqliteParams.tryFromSpecFirstSplit noDir 1 "a?b=c?connection_limit=9".toList := by
  decide

/-- C3: the parser is not panic-free. On `"db?foo"` the query chunk `foo`
has no `=`, so line 58 indexes `splitted[1]` out of bounds and the call
panics instead of returning a typed error. -/
theorem tryFrom_missing_equals_panics :
    SqliteParams.tryFrom noDir 1 "db?foo".toList = Outcome.panicked ∧
    SqliteParams.tryFrom noDir 1 "db?connection_limit=4294967296".toList =
      Outcome.panicked := by
  decide

/-- C4 counterexample: `connection_limit=0` parses successfully as the
`usize` value `0` and is accepted as the connection limit, contradicting
"non-positive values such as 0 are not accepted". -/
theorem connection_limit_zero_accepted :
    SqliteParams.tryFrom noDir 1 "db?connection_limit=0".toList =
      Outcome.ok ⟨0, "db".toList, none⟩ := by
  decide

/-- C5 counterexample: on `"file:file:dev.db"` the source's
`trim_start_matches` strips BOTH leading `file:` occurrences, so
`file_path` is `"dev.db"`, not the `"file:dev.db"` the claim's
strip-exactly-one reading requires. -/
theorem file_scheme_stripped_repeatedly :
    SqliteParams.tryFrom noDir 1 "file:file:dev.db".toList =
      Outcome.ok ⟨3, "dev.db".toList, none⟩ ∧
    "dev.db".toList ≠ "file:dev.db".toList := by
  decide

/-- C8: `attach_database` is idempotent on the attached-database set: after
attaching `name` once, a second call leaves the set unchanged, issues no
`ATTACH` statement (the name is already listed by `PRAGMA database_list`),
and still re-enables foreign-key enforcement. -/
theorem attach_database_idempotent (st : ConnState) (fp name : List Char) :
    (Sqlite.attach_database (Sqlite.attach_database st fp name).1 fp name).1.attached =
      (Sqlite.attach_database st fp name).1.attached ∧
    (∀ p n, EngineStmt.attachStmt p n ∉
      (Sqlite.attach_database (Sqlite.attach_database st fp name).1 fp name).2) ∧
    (Sqlite.attach_database (Sqlite.attach_database st fp name).1 fp name).1.fkEnabled
      = true := by
  by_cases h : name ∈ st.attached <;>
    simp [Sqlite.attach_database, h]

/-- C10: constructing a connector uses only the resolved path component —
two successfully parsed addresses with equal `file_path` give identical
connectors, and the constructed connector always holds a fresh in-memory
connection (no attachment happens at construction time). -/
theorem sqlite_construction_path_only (isDir : List Char → Bool) (cpus : Nat)
    (a1 a2 : List Char) (p1 p2 : SqliteParams)
    (h1 : SqliteParams.tryFrom isDir cpus a1 = Outcome.ok p1)
    (h2 : SqliteParams.tryFrom isDir cpus a2 = Outcome.ok p2)
    (hp : p1.file_path = p2.file_path) :
    Sqlite.tryFrom isDir cpus a1 = Sqlite.tryFrom isDir cpus a2 ∧
    ∀ s, Sqlite.tryFrom isDir cpus a1 = Outcome.ok s → s.client = freshConn := by
  constructor
  · simp [Sqlite.tryFrom, h1, h2, hp]
  · intro s hs
    simp only [Sqlite.tryFrom, h1, Outcome.ok.injEq] at hs
    rw [← hs]

/-- Witness for C10 at concrete addresses differing only in their
`db_name` / `connection_limit` parameters. -/
theorem sqlite_construction_path_only_witness :
    Sqlite.tryFrom noDir 1 "db?db_name=foo".toList =
      Sqlite.tryFrom noDir 1 "db?connection_limit=5".toList ∧
    ∀ s, Sqlite.tryFrom noDir 1 "db?db_name=foo".toList = Outcome.ok s →
      s.client = freshConn :=
  sqlite_construction_path_only noDir 1 ("db?db_name=foo".toList)
    ("db?connection_limit=5".toList) ⟨3, "db".toList, some "foo".toList⟩
    ⟨5, "db".toList, none⟩ (by decide) (by decide) rfl

/-- C6: when the path component (everything before the query block, after
scheme stripping) names an existing directory, parsing fails with
`DatabaseUrlIsInvalid` carrying that path. -/
theorem tryFrom_dir_fails (isDir : List Char → Bool) (physicalCpus : Nat)
    (path0 : List Char)
    (h : isDir ((resolvePath path0).headD []) = true) :
    SqliteParams.tryFrom isDir physicalCpus path0 =
      Outcome.err (Error.DatabaseUrlIsInvalid ((resolvePath path0).headD [])) := by
  unfold SqliteParams.tryFrom
  rw [if_pos h]

/-- Witness for C6: a directory path `dir` with a query block. -/
theorem tryFrom_dir_fails_witness :
    SqliteParams.tryFrom (fun s => s == "dir".toList) 1 "dir?x=1".toList =
      Outcome.err (Error.DatabaseUrlIsInvalid "dir".toList) :=
  tryFrom_dir_fails (fun s => s == "dir".toList) 1 ("dir?x=1".toList) (by decide)

/-- C7: an address whose query block contains no `connection_limit` key
(and no panicking chunk) parses with the default connection limit
`2 * physical_cores + 1`. -/
theorem tryFrom_default_connection_limit (isDir : List Char → Bool)
    (cpus : Nat) (path0 : List Char) (prs : List (List Char × List Char))
    (hdir : isDir ((resolvePath path0).headD []) = false)
    (hq : queryPairsOf path0 = some prs)
    (hnone : ∀ pr ∈ prs, pr.1 ≠ climitKey)
    (hfit : cpus * 2 + 1 < 2 ^ 32) :
    ∃ db, SqliteParams.tryFrom isDir cpus path0 =
      Outcome.ok ⟨cpus * 2 + 1, (resolvePath path0).headD [], db⟩ := by
  obtain ⟨db2, hdb⟩ := processPairs_no_climit prs (cpus * 2 + 1) none hnone
  refine ⟨db2, ?_⟩
  unfold SqliteParams.tryFrom
  rw [if_neg (by rw [hdir]; simp), hq, finishParams_some hdb, if_pos hfit]

/-- Witness for C7 at a concrete address with only a `db_name` pair. -/
theorem tryFrom_default_connection_limit_witness :
    ∃ db, SqliteParams.tryFrom noDir 1 "db?db_name=foo".toList =
      Outcome.ok ⟨1 * 2 + 1, (resolvePath "db?db_name=foo".toList).headD [], db⟩ :=
  tryFrom_default_connection_limit noDir 1 ("db?db_name=foo".toList)
    [("db_name".toList, "foo".toList)] rfl (by decide) (by decide) (by decide)

/-- C5 (amended): the parser strips EVERY leading repetition of `file:`
(one more `file:` in front never changes the outcome), and once the path
no longer starts with `file:` it is kept verbatim as `file_path`. -/
theorem tryFrom_file_scheme (isDir : List Char → Bool) (cpus : Nat)
    (s : List Char) (h1 : fileScheme.isPrefixOf s = false) (h2 : '?' ∉ s)
    (h3 : isDir s = false) (h4 : cpus * 2 + 1 < 2 ^ 32) :
    (∀ t, SqliteParams.tryFrom isDir cpus (fileScheme ++ t) =
      SqliteParams.tryFrom isDir cpus t) ∧
    SqliteParams.tryFrom isDir cpus (fileScheme ++ s) =
      Outcome.ok ⟨cpus * 2 + 1, s, none⟩ := by
  have key : ∀ t, SqliteParams.tryFrom isDir cpus (fileScheme ++ t) =
      SqliteParams.tryFrom isDir cpus t := by
    intro t
    have hstrip : resolvePath (fileScheme ++ t) = resolvePath t := by
      unfold resolvePath
      rw [trimStartMatches_append_self (by decide) t]
    unfold SqliteParams.tryFrom queryPairsOf
    rw [hstrip]
  refine ⟨key, ?_⟩
  rw [key s]
  have hres : resolvePath s = [s] := by
    unfold resolvePath
    rw [trimStartMatches_unmatched h1, splitOnChar_not_mem h2]
  rw [tryFrom_of_resolvePath_single hres, if_neg (by rw [h3]; simp), if_pos h4]

/-- Witness for C5 (amended) at `file:dev.db`. -/
theorem tryFrom_file_scheme_witness :
    (∀ t, SqliteParams.tryFrom noDir 1 (fileScheme ++ t) =
      SqliteParams.tryFrom noDir 1 t) ∧
    SqliteParams.tryFrom noDir 1 (fileScheme ++ "dev.db".toList) =
      Outcome.ok ⟨1 * 2 + 1, "dev.db".toList, none⟩ :=
  tryFrom_file_scheme noDir 1 ("dev.db".toList) (by decide) (by decide) rfl
    (by decide)

/-- C4 (amended): the `connection_limit` value is parsed as a Rust `usize`
— a non-negative integer, `0` included; exactly a failed `usize` parse
yields `InvalidConnectionArguments`, and a parsed value below `2 ^ 32`
becomes the connection limit verbatim. -/
theorem connection_limit_parse_usize (isDir : List Char → Bool) (cpus : Nat)
    (v : List Char) (hdir : isDir "db".toList = false)
    (h1 : '?' ∉ v) (h2 : '&' ∉ v) (h3 : '=' ∉ v) :
    (parseUsize v = none →
      SqliteParams.tryFrom isDir cpus ("db".toList ++ '?' :: (climitKey ++ '=' :: v)) =
        Outcome.err Error.InvalidConnectionArguments) ∧
    (∀ n, parseUsize v = some n → n < 2 ^ 32 →
      SqliteParams.tryFrom isDir cpus ("db".toList ++ '?' :: (climitKey ++ '=' :: v)) =
        Outcome.ok ⟨n, "db".toList, none⟩) := by
  have hnp : fileScheme.isPrefixOf ("db".toList ++ '?' :: (climitKey ++ '=' :: v)) = false :=
    isPrefixOf_append_cons_false _ (by decide) (by decide) (by decide)
  have hmem : '?' ∉ climitKey ++ '=' :: v := by
    simp only [List.mem_append, List.mem_cons, not_or]
    exact ⟨by decide, by decide, h1⟩
  have hamp : '&' ∉ climitKey ++ '=' :: v := by
    simp only [List.mem_append, List.mem_cons, not_or]
    exact ⟨by decide, by decide, h2⟩
  have hres : resolvePath ("db".toList ++ '?' :: (climitKey ++ '=' :: v)) =
      "db".toList :: [climitKey ++ '=' :: v] := by
    unfold resolvePath
    rw [trimStartMatches_unmatched hnp, splitOnChar_append_cons '?' _ (by decide),
      splitOnChar_not_mem hmem]
  have heval : SqliteParams.tryFrom isDir cpus ("db".toList ++ '?' :: (climitKey ++ '=' :: v)) =
      (match parseUsize v with
       | none => Outcome.err Error.InvalidConnectionArguments
       | some n =>
         if n < 2 ^ 32 then Outcome.ok ⟨n, "db".toList, none⟩ else Outcome.panicked) := by
    rw [tryFrom_of_resolvePath (by simp) hres, if_neg (by rw [hdir]; simp)]
    have hgl : ([climitKey ++ '=' :: v] : List (List Char)).getLastD [] =
        climitKey ++ '=' :: v := rfl
    rw [hgl, splitOnChar_not_mem hamp]
    have hsplit : splitOnChar '=' (climitKey ++ '=' :: v) = [climitKey, v] := by
      rw [splitOnChar_append_cons '=' _ (by decide), splitOnChar_not_mem h3]
    have hmk : mapKv (climitKey ++ '=' :: v) = some (climitKey, v) := by
      unfold mapKv
      rw [hsplit]
    have hmp : mapPairs [climitKey ++ '=' :: v] = some [(climitKey, v)] := by
      simp only [mapPairs, hmk]
    rw [hmp]
    simp only [finishParams, processPairs, if_pos rfl]
    cases parseUsize v with
    | none => rfl
    | some n => rfl
  constructor
  · intro h0
    rw [heval, h0]
  · intro n hn hlt
    rw [heval, hn]
    show (if n < 2 ^ 32 then Outcome.ok (SqliteParams.mk n ("db".toList) none)
        else Outcome.panicked) =
      Outcome.ok (SqliteParams.mk n ("db".toList) none)
    rw [if_pos hlt]

/-- Witness for C4 (amended): `connection_limit=abc` fails with
`InvalidConnectionArguments`. -/
theorem connection_limit_parse_usize_witness :
    SqliteParams.tryFrom noDir 1 ("db".toList ++ '?' :: (climitKey ++ '=' :: "abc".toList)) =
      Outcome.err Error.InvalidConnectionArguments :=
  (connection_limit_parse_usize noDir 1 ("abc".toList) rfl (by decide) (by decide)
    (by decide)).1 (by decide)

/-- C2 (amended): the path component is everything before the FIRST `?`,
but the `key=value` pairs are parsed from the segment after the LAST `?`;
`?`-separated segments in the middle are discarded, so an address parses
exactly like the same address with its middle segments removed. -/
theorem tryFrom_middle_segments_ignored (isDir : List Char → Bool) (cpus : Nat)
    (p mid r : List Char)
    (hpre : fileScheme.isPrefixOf p = false)
    (hp : '?' ∉ p) (hr : '?' ∉ r) :
    SqliteParams.tryFrom isDir cpus (p ++ '?' :: (mid ++ '?' :: r)) =
      SqliteParams.tryFrom isDir cpus (p ++ '?' :: r) := by
  have hq : ('?' : Char) ∉ fileScheme := by decide
  have h1 : fileScheme.isPrefixOf (p ++ '?' :: (mid ++ '?' :: r)) = false :=
    isPrefixOf_append_cons_false _ hq hpre hp
  have h2 : fileScheme.isPrefixOf (p ++ '?' :: r) = false :=
    isPrefixOf_append_cons_false _ hq hpre hp
  have hres1 : resolvePath (p ++ '?' :: (mid ++ '?' :: r)) =
      p :: splitOnChar '?' (mid ++ '?' :: r) := by
    unfold resolvePath
    rw [trimStartMatches_unmatched h1, splitOnChar_append_cons '?' _ hp]
  have hres2 : resolvePath (p ++ '?' :: r) = p :: [r] := by
    unfold resolvePath
    rw [trimStartMatches_unmatched h2, splitOnChar_append_cons '?' _ hp,
      splitOnChar_not_mem hr]
  rw [tryFrom_of_resolvePath (splitOnChar_ne_nil _ _) hres1,
    tryFrom_of_resolvePath (by simp) hres2,
    splitOnChar_getLastD '?' mid hr]
  rfl

/-- Witness for C2 (amended) at `a?b=c?connection_limit=9`. -/
theorem tryFrom_middle_segments_ignored_witness :
    SqliteParams.tryFrom noDir 1
      ("a".toList ++ '?' :: ("b=c".toList ++ '?' :: "connection_limit=9".toList)) =
      SqliteParams.tryFrom noDir 1 ("a".toList ++ '?' :: "connection_limit=9".toList) :=
  tryFrom_middle_segments_ignored noDir 1 ("a".toList) ("b=c".toList)
    ("connection_limit=9".toList) (by decide) (by decide) (by decide)

/-- C9: unrecognized query keys are discarded silently and are never an
error: an address whose query block is well-formed `key=value` chunks
parses exactly like the same address with the unrecognized chunks removed
(the whole query block dropped when nothing recognized remains). -/
theorem tryFrom_unknown_params_ignored (isDir : List Char → Bool) (cpus : Nat)
    (p : List Char) (kvs : List (List Char))
    (hpre : fileScheme.isPrefixOf p = false)
    (hp : '?' ∉ p)
    (hne : kvs ≠ [])
    (hkv : ∀ kv ∈ kvs, '?' ∉ kv ∧ '&' ∉ kv ∧ '=' ∈ kv) :
    SqliteParams.tryFrom isDir cpus (p ++ '?' :: joinAmp kvs) =
      (if kvs.filter recognizedKv = [] then SqliteParams.tryFrom isDir cpus p
       else SqliteParams.tryFrom isDir cpus
         (p ++ '?' :: joinAmp (kvs.filter recognizedKv))) := by
  have heval : ∀ (kvs2 : List (List Char)), kvs2 ≠ [] →
      (∀ kv ∈ kvs2, '?' ∉ kv ∧ '&' ∉ kv ∧ '=' ∈ kv) →
      SqliteParams.tryFrom isDir cpus (p ++ '?' :: joinAmp kvs2) =
        (if isDir p then Outcome.err (Error.DatabaseUrlIsInvalid p)
         else finishParams p cpus
           (some (kvs2.map fun kv => (kvKey kv, kvVal kv)))) := by
    intro kvs2 hne2 hkv2
    have hjq : '?' ∉ joinAmp kvs2 :=
      not_mem_joinAmp (by decide) fun kv hk => (hkv2 kv hk).1
    have h1 : fileScheme.isPrefixOf (p ++ '?' :: joinAmp kvs2) = false :=
      isPrefixOf_append_cons_false _ (by decide) hpre hp
    have hres : resolvePath (p ++ '?' :: joinAmp kvs2) = p :: [joinAmp kvs2] := by
      unfold resolvePath
      rw [trimStartMatches_unmatched h1, splitOnChar_append_cons '?' _ hp,
        splitOnChar_not_mem hjq]
    rw [tryFrom_of_resolvePath (by simp) hres]
    have hgl : splitOnChar '&' (([joinAmp kvs2] : List (List Char)).getLastD []) =
        kvs2 := by
      show splitOnChar '&' (joinAmp kvs2) = kvs2
      exact splitAmp_joinAmp hne2 fun kv hk => (hkv2 kv hk).2.1
    rw [hgl, mapPairs_of_all_eq fun kv hk => (hkv2 kv hk).2.2]
  have hcomm : ∀ kvs2 : List (List Char),
      ((kvs2.map fun kv => (kvKey kv, kvVal kv)).filter
        fun pr => pr.1 == climitKey || pr.1 == dbNameKey) =
      (kvs2.filter recognizedKv).map fun kv => (kvKey kv, kvVal kv) := by
    intro kvs2
    rw [List.filter_map]
    rfl
  rw [heval kvs hne hkv]
  by_cases hfil : kvs.filter recognizedKv = []
  · rw [if_pos hfil]
    have hres : resolvePath p = [p] := by
      unfold resolvePath
      rw [trimStartMatches_unmatched hpre, splitOnChar_not_mem hp]
    have hpp : processPairs (kvs.map fun kv => (kvKey kv, kvVal kv))
        (cpus * 2 + 1) none = some (cpus * 2 + 1, none) := by
      rw [processPairs_filter_recognized, hcomm, hfil]
      rfl
    rw [tryFrom_of_resolvePath_single hres, finishParams_some hpp]
  · rw [if_neg hfil]
    have hkv2 : ∀ kv ∈ kvs.filter recognizedKv, '?' ∉ kv ∧ '&' ∉ kv ∧ '=' ∈ kv :=
      fun kv hk => hkv kv (List.mem_filter.mp hk).1
    rw [heval (kvs.filter recognizedKv) hfil hkv2]
    have hpp : processPairs (kvs.map fun kv => (kvKey kv, kvVal kv))
        (cpus * 2 + 1) none =
        processPairs ((kvs.filter recognizedKv).map fun kv => (kvKey kv, kvVal kv))
          (cpus * 2 + 1) none := by
      rw [processPairs_filter_recognized
        (kvs.map fun kv => (kvKey kv, kvVal kv)),
        processPairs_filter_recognized
        ((kvs.filter recognizedKv).map fun kv => (kvKey kv, kvVal kv)),
        hcomm, hcomm, List.filter_filter]
      have hff : (kvs.filter fun a => recognizedKv a && recognizedKv a) =
          kvs.filter recognizedKv := by
        simp
      rw [hff]
    have hfin : finishParams p cpus
        (some (kvs.map fun kv => (kvKey kv, kvVal kv))) =
        finishParams p cpus
          (some ((kvs.filter recognizedKv).map fun kv => (kvKey kv, kvVal kv))) := by
      simp only [finishParams, hpp]
    rw [hfin]

/-- Witness for C9: the unknown key `a` is dropped and the address parses
like the one that keeps only `db_name=x`. -/
theorem tryFrom_unknown_params_ignored_witness :
    SqliteParams.tryFrom noDir 1
      ("db".toList ++ '?' :: joinAmp ["a=1".toList, "db_name=x".toList]) =
      (if List.filter recognizedKv ["a=1".toList, "db_name=x".toList] = []
       then SqliteParams.tryFrom noDir 1 "db".toList
       else SqliteParams.tryFrom noDir 1
         ("db".toList ++ '?' ::
           joinAmp (List.filter recognizedKv ["a=1".toList, "db_name=x".toList]))) :=
  tryFrom_unknown_params_ignored noDir 1 ("db".toList)
    ["a=1".toList, "db_name=x".toList] (by decide) (by decide) (by decide)
    (by decide)

end Quaint
